import Mathlib

/-!
Verification of the sentinel raster pipeline (`TiffConverter` in
`src/mz/tiff_handler.py` and its batch caller in `src/mz/run.py`).

Paths are modelled as `List Char`, mirroring Python `str`; `splitChar sep`
mirrors Python's `str.split(sep)` (always returns at least one, possibly
empty, segment) and `joinSlash` mirrors `"/".join`.
-/

/-- Python `s.split(sep)` on a single-character separator: always returns a
non-empty list of (possibly empty) segments. -/
def splitChar (sep : Char) : List Char → List (List Char)
  | [] => [[]]
  | c :: rest =>
    match splitChar sep rest with
    | [] => [[]]
    | s :: ss => if c = sep then [] :: s :: ss else (c :: s) :: ss

/-- Python `"/".join(segs)`. -/
def joinSlash : List (List Char) → List Char
  | [] => []
  | [s] => s
  | s :: s2 :: ss => s ++ '/' :: joinSlash (s2 :: ss)

theorem splitChar_ne_nil (sep : Char) (l : List Char) : splitChar sep l ≠ [] := by
  cases l with
  | nil => simp [splitChar]
  | cons c rest =>
    simp only [splitChar]
    cases h : splitChar sep rest with
    | nil => simp
    | cons s ss =>
      by_cases hc : c = sep <;> simp [hc]

theorem length_splitChar_pos (sep : Char) (l : List Char) : 0 < (splitChar sep l).length :=
  List.length_pos.mpr (splitChar_ne_nil sep l)

/-- Every segment produced by `splitChar sep` is free of the separator. -/
theorem splitChar_sep_not_mem (sep : Char) (l : List Char) :
    ∀ s ∈ splitChar sep l, sep ∉ s := by
  induction l with
  | nil => intro s hs; simp [splitChar] at hs; simp [hs]
  | cons c rest ih =>
    intro s hs
    simp only [splitChar] at hs
    cases h : splitChar sep rest with
    | nil => exact absurd h (splitChar_ne_nil sep rest)
    | cons s0 ss =>
      rw [h] at hs
      by_cases hc : c = sep
      · simp [hc] at hs
        rcases hs with hs | hs | hs
        · simp [hs]
        · exact ih s (by rw [h]; simp [hs])
        · exact ih s (by rw [h]; simp [hs])
      · simp [hc] at hs
        rcases hs with hs | hs
        · subst hs
          intro hmem
          rcases List.mem_cons.mp hmem with hh | hh
          · exact hc hh.symm
          · exact ih s0 (by rw [h]; simp) hh
        · exact ih s (by rw [h]; simp [hs])

/-- Splitting distributes over a separator occurrence. -/
theorem splitChar_append_sep (sep : Char) (xs ys : List Char) :
    splitChar sep (xs ++ sep :: ys) = splitChar sep xs ++ splitChar sep ys := by
  induction xs with
  | nil =>
    simp only [List.nil_append, splitChar]
    cases h : splitChar sep ys with
    | nil => exact absurd h (splitChar_ne_nil sep ys)
    | cons s ss => simp
  | cons c xs ih =>
    have e : splitChar sep ((c :: xs) ++ sep :: ys) =
        match splitChar sep (xs ++ sep :: ys) with
        | [] => [[]]
        | s :: ss => if c = sep then [] :: s :: ss else (c :: s) :: ss := rfl
    rw [e, ih]
    cases h : splitChar sep xs with
    | nil => exact absurd h (splitChar_ne_nil sep xs)
    | cons s ss =>
      simp only [h, List.cons_append, splitChar]
      by_cases hc : c = sep <;> simp [hc]

/-- A separator-free string splits into the single segment it is. -/
theorem splitChar_of_not_mem (sep : Char) (l : List Char) (h : sep ∉ l) :
    splitChar sep l = [l] := by
  induction l with
  | nil => simp [splitChar]
  | cons c rest ih =>
    have hc : c ≠ sep := fun hcc => h (by simp [hcc])
    have hrest : sep ∉ rest := fun hm => h (by simp [hm])
    simp only [splitChar, ih hrest]
    simp [hc]

theorem joinSlash_append (l₁ l₂ : List (List Char)) (h₁ : l₁ ≠ []) (h₂ : l₂ ≠ []) :
    joinSlash (l₁ ++ l₂) = joinSlash l₁ ++ '/' :: joinSlash l₂ := by
  induction l₁ with
  | nil => exact absurd rfl h₁
  | cons s l₁ ih =>
    cases l₁ with
    | nil =>
      cases l₂ with
      | nil => exact absurd rfl h₂
      | cons t l₂ => simp [joinSlash]
    | cons s2 l₁ =>
      have hrec := ih (by simp)
      show s ++ '/' :: joinSlash ((s2 :: l₁) ++ l₂) =
        (s ++ '/' :: joinSlash (s2 :: l₁)) ++ '/' :: joinSlash l₂
      rw [hrec]
      simp [List.append_assoc]

/-- `splitChar '/'` is a left inverse of `joinSlash` on non-empty lists of
slash-free segments. -/
theorem splitChar_joinSlash (segs : List (List Char)) (hne : segs ≠ [])
    (hfree : ∀ s ∈ segs, '/' ∉ s) :
    splitChar '/' (joinSlash segs) = segs := by
  induction segs with
  | nil => exact absurd rfl hne
  | cons s segs ih =>
    cases segs with
    | nil =>
      simp only [joinSlash]
      exact splitChar_of_not_mem '/' s (hfree s (by simp))
    | cons s2 segs =>
      have hjoin : joinSlash (s :: s2 :: segs) = s ++ '/' :: joinSlash (s2 :: segs) := rfl
      rw [hjoin, splitChar_append_sep,
        splitChar_of_not_mem '/' s (hfree s (by simp)),
        ih (by simp) (fun t ht => hfree t (by simp [ht]))]
      simp

/-- Directory entry as seen by `os.listdir` plus `os.path.isfile`: a listing
exposes top-level names only, and the contents of a `dirEnt` are never
inspected by the scan. -/
inductive FsEntry where
  | fileEnt (name : List Char)
  | dirEnt (name : List Char) (contents : List FsEntry)

def FsEntry.name : FsEntry → List Char
  | .fileEnt n => n
  | .dirEnt n _ => n

def FsEntry.isFile : FsEntry → Bool
  | .fileEnt _ => true
  | .dirEnt _ _ => false

/-- Error taxonomy of the spec (§7), abstracting the concrete Python
exceptions raised by `tiff_handler.py`. -/
inductive TiffError where
  | notFound
  | emptyCollection
  | emptyInput
  | reprojection
deriving DecidableEq, Repr

/-- State of `TiffConverter` (tiff_handler.py lines 27-34): the fields set by
`__init__`, including the mutable list of reprojected destination paths. -/
structure Converter where
  path : List Char
  all_files : List (List Char)
  tiff_files : List (List Char)
  reporjected_tiff_paths : List (List Char)
  CRS_list : List (List Char)
  CRS_set : List (List Char)
deriving DecidableEq, Repr

/-- Python `name.split(".")[-1]` — the final dot-separated extension. -/
def lastDotSeg (n : List Char) : List Char :=
  (splitChar '.' n).getLast (splitChar_ne_nil '.' n)

/-- `TiffConverter.__init__` (tiff_handler.py lines 27-34). The directory
listing is `none` when the directory does not exist (Python `listdir` raises
`FileNotFoundError` there); `crsOf` is the oracle for the CRS that
`rasterio.open` reads out of each tiff file header. -/
def initConverter (path : List Char) (listing : Option (List FsEntry))
    (crsOf : List Char → List Char) : Except TiffError Converter :=
  match listing with
  | none => .error .notFound
  | some entries =>
    let allFiles := (entries.filter (·.isFile)).map (·.name)
    let tiffFiles := allFiles.filter (fun n => lastDotSeg n == "tiff".data)
    let crsList := tiffFiles.map (fun f => crsOf (path ++ f))
    .ok { path := path, all_files := allFiles, tiff_files := tiffFiles,
          reporjected_tiff_paths := [], CRS_list := crsList,
          CRS_set := crsList.dedup }

/-- `TiffConverter.add_path` (lines 44-48): prefixes the working directory
path by plain string concatenation when `add` is true. -/
def add_path (c : Converter) (files : List (List Char)) (add : Bool) : List (List Char) :=
  if add then files.map (fun f => c.path ++ f) else files

/-- `TiffConverter.path_to_repojected_path` (lines 64-69): keeps only the
alphanumeric characters of the CRS name and splices that segment between the
directory part of the path and the filename. -/
def path_to_repojected_path (path crs_name : List Char) : List Char :=
  let crsName := crs_name.filter Char.isAlphanum
  let split_path := splitChar '/' path
  joinSlash split_path.dropLast ++
    '/' :: crsName ++ '/' :: split_path.getLast (splitChar_ne_nil '/' path)

/-- Directory part of a path, Python `"/".join(path.split("/")[:-1])`. -/
def dirPart (p : List Char) : List Char := joinSlash ((splitChar '/' p).dropLast)

/-- Filesystem side effects performed by the converter. -/
inductive FsEffect where
  | mkdirP (d : List Char)
  | writeFile (f : List Char)
deriving DecidableEq, Repr

/-- `TiffConverter.reproject_raster` (lines 78-110). The destination path is
appended to `reporjected_tiff_paths` and its parent directory created before
the source is opened; `srcOk` is false when `rasterio.open(path)` fails and
`transformOk` is false when `calculate_default_transform` fails — in either
case the exception propagates before the destination file is opened for
writing, so no destination file is created on those failures. -/
def reproject_raster (c : Converter) (path dst_crs : List Char)
    (srcOk transformOk : Bool) : Converter × List FsEffect × Option TiffError :=
  let dest_path := path_to_repojected_path path dst_crs
  let c1 := { c with reporjected_tiff_paths := c.reporjected_tiff_paths ++ [dest_path] }
  if srcOk then
    if transformOk then
      (c1, [.mkdirP (dirPart dest_path), .writeFile dest_path], none)
    else
      (c1, [.mkdirP (dirPart dest_path)], some .reprojection)
  else
    (c1, [.mkdirP (dirPart dest_path)], some .reprojection)

/-- `TiffConverter._reporject_raster_files` (lines 112-116) on the success
path (every rasterio call succeeds): reprojects every discovered tiff
unconditionally, in scan order, with no check of the file's current CRS
against the target. -/
def reporject_raster_files (c : Converter) (dst_crs : List Char) :
    Converter × List FsEffect :=
  (add_path c c.tiff_files true).foldl
    (fun acc p =>
      let r := reproject_raster acc.1 p dst_crs true true
      (r.1, acc.2 ++ r.2.1))
    (c, [])

/-- Python `str(Path(d) / f)`: pathlib drops an empty left component. -/
def pathJoin (d f : List Char) : List Char := if d = [] then f else d ++ '/' :: f

/-- `TiffConverter._merge_tiff_list` (lines 118-130). On the empty list
Python raises `IndexError` at `paths[0]` (the spec's `EmptyInputError`)
before any output path is computed or any file written; otherwise
`rasterio.merge.merge` writes the mosaic once to `stitched.tif` next to the
first input and that path is returned. The second component lists the files
written. -/
def mergeTiffList (paths : List (List Char)) :
    Except TiffError (List Char × List (List Char)) :=
  match paths with
  | [] => .error .emptyInput
  | p :: _ =>
    let dst_file := pathJoin (dirPart p) "stitched.tif".data
    .ok (dst_file, [dst_file])

/-- `TiffConverter.reproject_merge` (lines 132-143), success path: reproject
every tile, then merge the accumulated `reporjected_tiff_paths`. -/
def reproject_merge (c : Converter) (dst_crs : List Char) :
    Converter × List FsEffect × Except TiffError (List Char × List (List Char)) :=
  let r := reporject_raster_files c dst_crs
  (r.1, r.2, mergeTiffList r.1.reporjected_tiff_paths)

/-- The retrying upload `upload_to_s3` decorated `@retry(tries=3, delay=2)`
(run.py lines 72-75). `ok i` tells whether attempt number `i` (0-based)
succeeds; a fixed delay of 2 seconds is slept before each retry, never
before the first attempt. Returns the outcome (carrying the number of
attempts made) and the list of delays slept; the `error` outcome is the
exception re-raised by the decorator once the tries are exhausted. -/
def uploadAttempts (ok : Nat → Bool) : Nat → Nat → Except Nat Nat × List Nat
  | 0, made => (.error made, [])
  | tries + 1, made =>
    if ok made then (.ok (made + 1), [])
    else
      match tries with
      | 0 => (.error (made + 1), [])
      | t + 1 =>
        let r := uploadAttempts ok (t + 1) (made + 1)
        (r.1, 2 :: r.2)

def upload_to_s3 (ok : Nat → Bool) : Except Nat Nat × List Nat :=
  uploadAttempts ok 3 0

/-- Result of one `try_upload_to_s3` call: whether the upload eventually
succeeded, how many attempts were made and which delays were slept. -/
structure UploadOutcome where
  succeeded : Bool
  attempts : Nat
  delays : List Nat
deriving DecidableEq, Repr

/-- `try_upload_to_s3` (run.py lines 78-84): calls the retrying upload and
swallows any exception, logging it — it returns normally to its caller in
every case; `succeeded` is false exactly when the retries were exhausted. -/
def try_upload_to_s3 (ok : Nat → Bool) : UploadOutcome :=
  match upload_to_s3 ok with
  | (.ok n, d) => { succeeded := true, attempts := n, delays := d }
  | (.error n, d) => { succeeded := false, attempts := n, delays := d }

/-- Tail of `process_project_date` (run.py lines 113-120): the three
artifact uploads followed by the purge of the local working directory,
which is unconditional (the boolean component records that `rmdir` ran). -/
def process_project_date (ok1 ok2 ok3 : Nat → Bool) : List UploadOutcome × Bool :=
  ([try_upload_to_s3 ok1, try_upload_to_s3 ok2, try_upload_to_s3 ok3], true)

/-- Spatial bounds (west, south, east, north). -/
structure Bounds where
  west : Int
  south : Int
  east : Int
  north : Int
deriving DecidableEq, Repr

/-- Modelled from the spec: an input raster tile as the Mosaicker (§4.3)
sees it — `rasterio.merge.merge` is an external routine not under `src/`.
`px x y = none` is the nodata sentinel at that location. -/
structure Tile where
  bounds : Bounds
  px : Int → Int → Option Int

def covers (t : Tile) (x y : Int) : Bool :=
  decide (t.bounds.west ≤ x) && decide (x < t.bounds.east) &&
  decide (t.bounds.south ≤ y) && decide (y < t.bounds.north)

/-- A tile contributes at a location when it covers it with a non-nodata
value. -/
def validAt (t : Tile) (x y : Int) : Bool :=
  covers t x y && (t.px x y).isSome

/-- Modelled from the spec: the union bounding box of a non-empty tile list
— "compute the union bounding box of all input tile bounds" (§4.3). -/
def unionBounds : Tile → List Tile → Bounds
  | t, [] => t.bounds
  | t, t2 :: ts =>
    let b := unionBounds t2 ts
    { west := min t.bounds.west b.west, south := min t.bounds.south b.south,
      east := max t.bounds.east b.east, north := max t.bounds.north b.north }

/-- Bounds of the merged mosaic; `none` on an empty input list. -/
def mosaicBounds : List Tile → Option Bounds
  | [] => none
  | t :: ts => some (unionBounds t ts)

/-- Modelled from the spec: the Mosaicker per-pixel rule (§4.3) — "for each
output pixel, value is taken from the first input tile (in the given list
order) that has a non-nodata value covering that location". -/
def mergePx : List Tile → Int → Int → Option Int
  | [], _, _ => none
  | t :: ts, x, y => if validAt t x y then t.px x y else mergePx ts x y

/-- The files written by a `_merge_tiff_list` call (none when it fails). -/
def mergeWrites (paths : List (List Char)) : List (List Char) :=
  match mergeTiffList paths with
  | .ok (_, ws) => ws
  | .error _ => []

/-- C2: for the empty list of tile paths, merge fails with `EmptyInputError`
and writes no output file. -/
theorem c2_merge_empty_input :
    mergeTiffList [] = Except.error TiffError.emptyInput ∧ mergeWrites [] = [] :=
  ⟨rfl, rfl⟩

/-- C8: for every non-empty list of input tile paths that live in one
directory, the merge result is written exactly once, to the fixed name
`stitched.tif` inside that directory, and that same path is returned. -/
theorem c8_merge_fixed_output (paths : List (List Char)) (d : List Char)
    (h1 : paths ≠ []) (h2 : ∀ p ∈ paths, dirPart p = d) :
    mergeTiffList paths =
      Except.ok (pathJoin d "stitched.tif".data, [pathJoin d "stitched.tif".data]) := by
  cases paths with
  | nil => exact absurd rfl h1
  | cons p rest =>
    have hp : dirPart p = d := h2 p (by simp)
    simp [mergeTiffList, hp]

theorem c8_witness :
    mergeTiffList ["data/a.tiff".data, "data/b.tiff".data] =
      Except.ok (pathJoin "data".data "stitched.tif".data,
        [pathJoin "data".data "stitched.tif".data]) :=
  c8_merge_fixed_output ["data/a.tiff".data, "data/b.tiff".data] "data".data
    (by decide) (by decide)

theorem slash_not_mem_filter_alnum (crs : List Char) :
    '/' ∉ crs.filter Char.isAlphanum := by
  intro hm
  have h := (List.mem_filter.mp hm).2
  exact absurd h (by decide)

theorem path_to_repojected_path_eq (path crs : List Char) :
    path_to_repojected_path path crs =
      joinSlash (splitChar '/' path).dropLast ++
        '/' :: crs.filter Char.isAlphanum ++
          '/' :: (splitChar '/' path).getLast (splitChar_ne_nil '/' path) := rfl

/-- C5: the reprojection destination path is a pure function of source path
and CRS name: its segments are exactly the source directory segments, then
the CRS name restricted to its alphanumeric characters, then the unchanged
source filename. -/
theorem c5_reprojected_path_shape (path crs : List Char)
    (h : 2 ≤ (splitChar '/' path).length) :
    splitChar '/' (path_to_repojected_path path crs) =
      (splitChar '/' path).dropLast ++
        [crs.filter Char.isAlphanum,
          (splitChar '/' path).getLast (splitChar_ne_nil '/' path)] := by
  have hdl : (splitChar '/' path).dropLast ≠ [] := by
    intro hnil
    have hlen := List.length_dropLast (splitChar '/' path)
    rw [hnil] at hlen
    simp at hlen
    omega
  have hfree : ∀ s ∈ (splitChar '/' path).dropLast, '/' ∉ s :=
    fun s hs => splitChar_sep_not_mem '/' path s (List.dropLast_subset _ hs)
  have hlast : '/' ∉ (splitChar '/' path).getLast (splitChar_ne_nil '/' path) :=
    splitChar_sep_not_mem '/' path _ (List.getLast_mem _)
  rw [path_to_repojected_path_eq, List.append_assoc, List.cons_append,
    splitChar_append_sep '/' (joinSlash (splitChar '/' path).dropLast),
    splitChar_joinSlash _ hdl hfree,
    splitChar_append_sep '/' (crs.filter Char.isAlphanum),
    splitChar_of_not_mem '/' _ (slash_not_mem_filter_alnum crs),
    splitChar_of_not_mem '/' _ hlast]
  simp

theorem c5_witness :
    splitChar '/' (path_to_repojected_path "data/a.tiff".data "EPSG:3857".data) =
      ["data".data, "EPSG3857".data, "a.tiff".data] := by
  have h := c5_reprojected_path_shape "data/a.tiff".data "EPSG:3857".data (by decide)
  rw [h]
  decide

/-- C4 counterexample: a directory that exists but holds no file with the
accepted `tiff` extension does not make catalog construction fail — the
claimed `EmptyCollectionError` is never raised; `__init__` returns normally
with an empty tile list. -/
theorem c4_counterexample :
    initConverter "d/".data (some [FsEntry.fileEnt "a.txt".data])
        (fun _ => "EPSG:32633".data) =
      Except.ok ⟨"d/".data, ["a.txt".data], [], [], [], []⟩ := rfl

/-- C4 amended: constructing the catalog fails with `NotFoundError` when the
directory does not exist; when the directory exists but contains no file
with the accepted raster extension, construction succeeds with an empty tile
collection (no error is raised). -/
theorem c4_amended (p : List Char) (entries : List FsEntry)
    (crsOf : List Char → List Char)
    (h : ∀ e ∈ entries, e.isFile = true → lastDotSeg e.name ≠ "tiff".data) :
    initConverter p none crsOf = Except.error TiffError.notFound ∧
    initConverter p (some entries) crsOf =
      Except.ok ⟨p, (entries.filter (·.isFile)).map (·.name), [], [], [], []⟩ := by
  refine ⟨rfl, ?_⟩
  have hfil : ((entries.filter (·.isFile)).map (·.name)).filter
      (fun n => lastDotSeg n == "tiff".data) = [] := by
    rw [List.filter_eq_nil_iff]
    intro n hn
    rcases List.mem_map.mp hn with ⟨e, he, rfl⟩
    have hef : e.isFile = true := (List.mem_filter.mp he).2
    have := h e (List.mem_filter.mp he).1 hef
    simp [this]
  simp [initConverter, hfil]

theorem c4_amended_witness :
    initConverter "d/".data none (fun _ => "EPSG:32633".data) =
      Except.error TiffError.notFound ∧
    initConverter "d/".data (some [FsEntry.fileEnt "b.txt".data])
        (fun _ => "EPSG:32633".data) =
      Except.ok ⟨"d/".data, ["b.txt".data], [], [], [], []⟩ :=
  c4_amended "d/".data [FsEntry.fileEnt "b.txt".data]
    (fun _ => "EPSG:32633".data) (by decide)

/-- C3 counterexample: reprojecting from an unreadable source file fails,
yet the destination path has already been recorded on the converter before
the source was opened — partial state is left behind, contradicting the
claim that no destination path is recorded on failure. -/
theorem c3_counterexample :
    (reproject_raster ⟨"d/".data, ["a.tiff".data], ["a.tiff".data], [], [], []⟩
        "d/a.tiff".data "EPSG:3857".data false true).2.2 =
      some TiffError.reprojection ∧
    (reproject_raster ⟨"d/".data, ["a.tiff".data], ["a.tiff".data], [], [], []⟩
        "d/a.tiff".data "EPSG:3857".data false true).1.reporjected_tiff_paths =
      ["d/EPSG3857/a.tiff".data] := by
  constructor
  · rfl
  · decide

/-- C3 amended: when the source is unreadable or the destination transform
cannot be computed, reprojection fails with `ReprojectionError` and the
destination file is not created — but the run is not free of partial state:
the destination path has already been appended to the recorded list and the
destination parent directory has been created. -/
theorem c3_amended (c : Converter) (path crs : List Char)
    (srcOk transformOk : Bool) (h : srcOk = false ∨ transformOk = false) :
    (reproject_raster c path crs srcOk transformOk).2.2 =
      some TiffError.reprojection ∧
    (∀ f, FsEffect.writeFile f ∉ (reproject_raster c path crs srcOk transformOk).2.1) ∧
    (reproject_raster c path crs srcOk transformOk).1.reporjected_tiff_paths =
      c.reporjected_tiff_paths ++ [path_to_repojected_path path crs] ∧
    FsEffect.mkdirP (dirPart (path_to_repojected_path path crs)) ∈
      (reproject_raster c path crs srcOk transformOk).2.1 := by
  rcases h with h | h
  · subst h
    cases transformOk <;> simp [reproject_raster]
  · subst h
    cases srcOk <;> simp [reproject_raster]

theorem c3_amended_witness :
    (reproject_raster ⟨"d/".data, [], [], [], [], []⟩
        "d/b.tiff".data "EPSG:3857".data false true).2.2 =
      some TiffError.reprojection ∧
    (reproject_raster ⟨"d/".data, [], [], [], [], []⟩
        "d/b.tiff".data "EPSG:3857".data false true).1.reporjected_tiff_paths =
      [path_to_repojected_path "d/b.tiff".data "EPSG:3857".data] := by
  have h := c3_amended ⟨"d/".data, [], [], [], [], []⟩
    "d/b.tiff".data "EPSG:3857".data false true (Or.inl rfl)
  exact ⟨h.1, by simpa using h.2.2.1⟩

/-- Effects emitted for one successfully reprojected source path. -/
def reprojectEffects (p dst_crs : List Char) : List FsEffect :=
  [FsEffect.mkdirP (dirPart (path_to_repojected_path p dst_crs)),
   FsEffect.writeFile (path_to_repojected_path p dst_crs)]

theorem foldl_reproject_spec (dst_crs : List Char) (ps : List (List Char))
    (c : Converter) (effs : List FsEffect) :
    ps.foldl
        (fun acc p =>
          let r := reproject_raster acc.1 p dst_crs true true
          (r.1, acc.2 ++ r.2.1))
        (c, effs) =
      ({ c with reporjected_tiff_paths :=
          c.reporjected_tiff_paths ++
            ps.map (fun p => path_to_repojected_path p dst_crs) },
        effs ++ (ps.map (fun p => reprojectEffects p dst_crs)).flatten) := by
  induction ps generalizing c effs with
  | nil =>
    obtain ⟨cp, ca, ct, cr, cl, cs⟩ := c
    simp
  | cons p ps ih =>
    simp only [List.foldl_cons, List.map_cons, List.flatten_cons]
    rw [ih]
    simp [reproject_raster, reprojectEffects, List.append_assoc]

/-- Whether an effect writes a file. -/
def FsEffect.isWrite : FsEffect → Bool
  | .writeFile _ => true
  | .mkdirP _ => false

theorem writes_of_reprojectEffects (dst_crs : List Char) (ps : List (List Char)) :
    ((ps.map (fun p => reprojectEffects p dst_crs)).flatten.filter
        FsEffect.isWrite).length = ps.length := by
  induction ps with
  | nil => rfl
  | cons p ps ih =>
    have e : (List.map (fun q => reprojectEffects q dst_crs) (p :: ps)).flatten =
        reprojectEffects p dst_crs ++
          (List.map (fun q => reprojectEffects q dst_crs) ps).flatten := by
      simp
    rw [e, List.filter_append, List.length_append, ih]
    have e2 : (reprojectEffects p dst_crs).filter FsEffect.isWrite =
        [FsEffect.writeFile (path_to_repojected_path p dst_crs)] := rfl
    rw [e2]
    simp [Nat.add_comm]

/-- C6: `_reporject_raster_files` reprojects every discovered tile
unconditionally — the recorded destinations grow by exactly one path per
discovered tile, the number of files written equals the number of discovered
tiles, and the result does not depend on the CRSs recorded for the tiles (no
skip fast path for tiles already in the target CRS). -/
theorem c6_reproject_unconditional (c : Converter) (dst_crs : List Char) :
    (reporject_raster_files c dst_crs).1.reporjected_tiff_paths =
      c.reporjected_tiff_paths ++
        c.tiff_files.map (fun f => path_to_repojected_path (c.path ++ f) dst_crs) ∧
    ((reporject_raster_files c dst_crs).2.filter FsEffect.isWrite).length =
      c.tiff_files.length ∧
    (∀ other_crs_list other_crs_set : List (List Char),
      reporject_raster_files
          { c with CRS_list := other_crs_list, CRS_set := other_crs_set } dst_crs =
        ({ (reporject_raster_files c dst_crs).1 with
            CRS_list := other_crs_list, CRS_set := other_crs_set },
          (reporject_raster_files c dst_crs).2)) := by
  have hmap : add_path c c.tiff_files true =
      c.tiff_files.map (fun f => c.path ++ f) := rfl
  refine ⟨?_, ?_, ?_⟩
  · rw [reporject_raster_files, hmap, foldl_reproject_spec]
    simp [List.map_map, Function.comp]
  · rw [reporject_raster_files, hmap, foldl_reproject_spec]
    simp only [List.nil_append]
    rw [writes_of_reprojectEffects]
    simp
  · intro ocl ocs
    rw [reporject_raster_files, reporject_raster_files]
    simp only [add_path]
    rw [foldl_reproject_spec, foldl_reproject_spec]

theorem reporject_raster_files_converter (c : Converter) (dst_crs : List Char) :
    (reporject_raster_files c dst_crs).1 =
      { c with reporjected_tiff_paths :=
          c.reporjected_tiff_paths ++
            c.tiff_files.map (fun f => path_to_repojected_path (c.path ++ f) dst_crs) } := by
  have hmap : add_path c c.tiff_files true =
      c.tiff_files.map (fun f => c.path ++ f) := rfl
  rw [reporject_raster_files, hmap, foldl_reproject_spec]
  simp [List.map_map, Function.comp]

/-- C9: `reporjected_tiff_paths` is append-only converter state — every
`reproject_raster` call appends exactly one destination path, computed
before the source file is opened (so the append happens even on failure),
and nothing ever removes entries. On a freshly constructed converter one
`reproject_merge` run feeds the merge exactly one destination path per
discovered tile in scan order; a second run on the same instance feeds it
every destination path twice. -/
theorem c9_append_only_duplication (c : Converter) (dst_crs : List Char)
    (h : c.reporjected_tiff_paths = []) :
    (∀ (c2 : Converter) (p : List Char) (sOk tOk : Bool),
      (reproject_raster c2 p dst_crs sOk tOk).1.reporjected_tiff_paths =
        c2.reporjected_tiff_paths ++ [path_to_repojected_path p dst_crs]) ∧
    (reproject_merge c dst_crs).1.reporjected_tiff_paths =
      c.tiff_files.map (fun f => path_to_repojected_path (c.path ++ f) dst_crs) ∧
    (reproject_merge (reproject_merge c dst_crs).1 dst_crs).1.reporjected_tiff_paths =
      c.tiff_files.map (fun f => path_to_repojected_path (c.path ++ f) dst_crs) ++
        c.tiff_files.map (fun f => path_to_repojected_path (c.path ++ f) dst_crs) ∧
    (reproject_merge c dst_crs).2.2 =
      mergeTiffList
        (c.tiff_files.map (fun f => path_to_repojected_path (c.path ++ f) dst_crs)) := by
  have hfirst : (reproject_merge c dst_crs).1 = (reporject_raster_files c dst_crs).1 := rfl
  refine ⟨?_, ?_, ?_, ?_⟩
  · intro c2 p sOk tOk
    cases sOk <;> cases tOk <;> simp [reproject_raster]
  · rw [hfirst, reporject_raster_files_converter]
    simp [h]
  · have h2 : (reproject_merge (reproject_merge c dst_crs).1 dst_crs).1 =
        (reporject_raster_files (reproject_merge c dst_crs).1 dst_crs).1 := rfl
    rw [h2, reporject_raster_files_converter, hfirst,
      reporject_raster_files_converter]
    simp [h]
  · have h3 : (reproject_merge c dst_crs).2.2 =
        mergeTiffList (reporject_raster_files c dst_crs).1.reporjected_tiff_paths := rfl
    rw [h3, reporject_raster_files_converter]
    simp [h]

theorem c9_witness :
    (reproject_merge
        ⟨"d/".data, ["a.tiff".data, "b.tiff".data], ["a.tiff".data, "b.tiff".data],
          [], [], []⟩ "EPSG:3857".data).1.reporjected_tiff_paths =
      ["d/EPSG3857/a.tiff".data, "d/EPSG3857/b.tiff".data] ∧
    (reproject_merge
        (reproject_merge
          ⟨"d/".data, ["a.tiff".data, "b.tiff".data], ["a.tiff".data, "b.tiff".data],
            [], [], []⟩ "EPSG:3857".data).1 "EPSG:3857".data).1.reporjected_tiff_paths =
      ["d/EPSG3857/a.tiff".data, "d/EPSG3857/b.tiff".data,
        "d/EPSG3857/a.tiff".data, "d/EPSG3857/b.tiff".data] := by
  have h := c9_append_only_duplication
    ⟨"d/".data, ["a.tiff".data, "b.tiff".data], ["a.tiff".data, "b.tiff".data],
      [], [], []⟩ "EPSG:3857".data rfl
  refine ⟨?_, ?_⟩
  · rw [h.2.1]
    decide
  · rw [h.2.2.1]
    decide

/-- C10: the directory scan is non-recursive and extension-exact — the
discovered tile list is exactly the top-level regular files whose final
dot-separated extension is `tiff` — so the merged mosaic `stitched.tif`
(extension `tif`) is never picked up as an input tile by any scan. -/
theorem c10_scan_excludes_stitched (p : List Char) (entries : List FsEntry)
    (crsOf : List Char → List Char) (c : Converter)
    (h : initConverter p (some entries) crsOf = Except.ok c) :
    c.tiff_files =
      ((entries.filter (·.isFile)).map (·.name)).filter
        (fun n => lastDotSeg n == "tiff".data) ∧
    "stitched.tif".data ∉ c.tiff_files := by
  simp only [initConverter] at h
  injection h with h
  subst h
  refine ⟨rfl, ?_⟩
  intro hmem
  have hext := (List.mem_filter.mp hmem).2
  exact absurd hext (by decide)

theorem c10_witness :
    (⟨"d/".data, ["a.tiff".data, "stitched.tif".data], ["a.tiff".data], [],
        ["A".data], ["A".data]⟩ : Converter).tiff_files =
      (([FsEntry.fileEnt "a.tiff".data, FsEntry.fileEnt "stitched.tif".data,
          FsEntry.dirEnt "EPSG3857".data [FsEntry.fileEnt "stitched.tif".data]].filter
            (·.isFile)).map (·.name)).filter
        (fun n => lastDotSeg n == "tiff".data) ∧
    "stitched.tif".data ∉
      (⟨"d/".data, ["a.tiff".data, "stitched.tif".data], ["a.tiff".data], [],
          ["A".data], ["A".data]⟩ : Converter).tiff_files :=
  c10_scan_excludes_stitched "d/".data
    [FsEntry.fileEnt "a.tiff".data, FsEntry.fileEnt "stitched.tif".data,
      FsEntry.dirEnt "EPSG3857".data [FsEntry.fileEnt "stitched.tif".data]]
    (fun _ => "A".data)
    ⟨"d/".data, ["a.tiff".data, "stitched.tif".data], ["a.tiff".data], [],
      ["A".data], ["A".data]⟩ rfl

theorem try_upload_attempts (ok : Nat → Bool) :
    1 ≤ (try_upload_to_s3 ok).attempts ∧ (try_upload_to_s3 ok).attempts ≤ 3 ∧
    (try_upload_to_s3 ok).delays =
      List.replicate ((try_upload_to_s3 ok).attempts - 1) 2 := by
  cases h0 : ok 0 <;> cases h1 : ok 1 <;> cases h2 : ok 2 <;>
    simp [try_upload_to_s3, upload_to_s3, uploadAttempts, h0, h1, h2,
      List.replicate]

/-- C7: each remote upload makes at most 3 attempts with a fixed delay of 2
seconds between consecutive attempts; after exhausting the retries the
wrapper swallows the failure and returns normally, and the batch unit
proceeds to delete its local working directory regardless of the outcome of
every individual upload. -/
theorem c7_retry_bounded_cleanup (ok1 ok2 ok3 : Nat → Bool) :
    (process_project_date ok1 ok2 ok3).2 = true ∧
    (∀ r ∈ (process_project_date ok1 ok2 ok3).1,
      1 ≤ r.attempts ∧ r.attempts ≤ 3 ∧
        r.delays = List.replicate (r.attempts - 1) 2) ∧
    (∀ ok : Nat → Bool, ok 0 = false → ok 1 = false → ok 2 = false →
      try_upload_to_s3 ok = ⟨false, 3, [2, 2]⟩) := by
  refine ⟨rfl, ?_, ?_⟩
  · intro r hr
    simp only [process_project_date, List.mem_cons, List.not_mem_nil,
      or_false] at hr
    rcases hr with rfl | rfl | rfl <;> exact try_upload_attempts _
  · intro ok h0 h1 h2
    simp [try_upload_to_s3, upload_to_s3, uploadAttempts, h0, h1, h2]

theorem c7_witness :
    (process_project_date (fun _ => false) (fun _ => true)
        (fun i => i == 2)).2 = true ∧
    try_upload_to_s3 (fun _ => false) = ⟨false, 3, [2, 2]⟩ := by
  have h := c7_retry_bounded_cleanup (fun _ => false) (fun _ => true)
    (fun i => i == 2)
  exact ⟨h.1, h.2.2 (fun _ => false) rfl rfl rfl⟩

theorem unionBounds_le (t : Tile) (ts : List Tile) :
    ∀ u ∈ t :: ts, (unionBounds t ts).west ≤ u.bounds.west ∧
      (unionBounds t ts).south ≤ u.bounds.south ∧
      u.bounds.east ≤ (unionBounds t ts).east ∧
      u.bounds.north ≤ (unionBounds t ts).north := by
  induction ts generalizing t with
  | nil =>
    intro u hu
    simp only [List.mem_cons, List.not_mem_nil, or_false] at hu
    subst hu
    simp [unionBounds]
  | cons t2 ts ih =>
    intro u hu
    rcases List.mem_cons.mp hu with rfl | hu
    · simp only [unionBounds]
      exact ⟨min_le_left _ _, min_le_left _ _, le_max_left _ _, le_max_left _ _⟩
    · have h4 := ih t2 u hu
      simp only [unionBounds]
      exact ⟨le_trans (min_le_right _ _) h4.1,
        le_trans (min_le_right _ _) h4.2.1,
        le_trans h4.2.2.1 (le_max_right _ _),
        le_trans h4.2.2.2 (le_max_right _ _)⟩

theorem unionBounds_attained (t : Tile) (ts : List Tile) :
    (∃ u ∈ t :: ts, (unionBounds t ts).west = u.bounds.west) ∧
    (∃ u ∈ t :: ts, (unionBounds t ts).south = u.bounds.south) ∧
    (∃ u ∈ t :: ts, (unionBounds t ts).east = u.bounds.east) ∧
    (∃ u ∈ t :: ts, (unionBounds t ts).north = u.bounds.north) := by
  induction ts generalizing t with
  | nil =>
    exact ⟨⟨t, by simp, rfl⟩, ⟨t, by simp, rfl⟩, ⟨t, by simp, rfl⟩,
      ⟨t, by simp, rfl⟩⟩
  | cons t2 ts ih =>
    obtain ⟨⟨uw, hw1, hw2⟩, ⟨us, hs1, hs2⟩, ⟨ue, he1, he2⟩, ⟨un, hn1, hn2⟩⟩ :=
      ih t2
    refine ⟨?_, ?_, ?_, ?_⟩
    · rcases le_total t.bounds.west (unionBounds t2 ts).west with hle | hle
      · exact ⟨t, by simp, by simp only [unionBounds]; rw [min_eq_left hle]⟩
      · exact ⟨uw, List.mem_cons_of_mem t hw1,
          by simp only [unionBounds]; rw [min_eq_right hle, hw2]⟩
    · rcases le_total t.bounds.south (unionBounds t2 ts).south with hle | hle
      · exact ⟨t, by simp, by simp only [unionBounds]; rw [min_eq_left hle]⟩
      · exact ⟨us, List.mem_cons_of_mem t hs1,
          by simp only [unionBounds]; rw [min_eq_right hle, hs2]⟩
    · rcases le_total t.bounds.east (unionBounds t2 ts).east with hle | hle
      · exact ⟨ue, List.mem_cons_of_mem t he1,
          by simp only [unionBounds]; rw [max_eq_right hle, he2]⟩
      · exact ⟨t, by simp, by simp only [unionBounds]; rw [max_eq_left hle]⟩
    · rcases le_total t.bounds.north (unionBounds t2 ts).north with hle | hle
      · exact ⟨un, List.mem_cons_of_mem t hn1,
          by simp only [unionBounds]; rw [max_eq_right hle, hn2]⟩
      · exact ⟨t, by simp, by simp only [unionBounds]; rw [max_eq_left hle]⟩

theorem mergePx_eq_find (ts : List Tile) (x y : Int) :
    mergePx ts x y =
      (ts.find? (fun t => validAt t x y)).bind (fun t => t.px x y) := by
  induction ts with
  | nil => rfl
  | cons t ts ih =>
    by_cases h : validAt t x y
    · simp [mergePx, List.find?, h]
    · simp only [Bool.not_eq_true] at h
      simp [mergePx, List.find?, h, ih]

theorem mergePx_append_of_valid (ts ts2 : List Tile) (x y : Int)
    (h : ∃ t ∈ ts, validAt t x y = true) :
    mergePx (ts ++ ts2) x y = mergePx ts x y := by
  induction ts with
  | nil => simp at h
  | cons t ts ih =>
    by_cases ht : validAt t x y
    · simp [mergePx, ht]
    · rcases h with ⟨u, hu, hval⟩
      rcases List.mem_cons.mp hu with rfl | hu
      · exact absurd hval ht
      · simp only [Bool.not_eq_true] at ht
        simp [mergePx, ht, ih ⟨u, hu, hval⟩]

/-- C1: for every non-empty tile list the mosaic bounds are the union
bounding box of the inputs (they contain every tile's bounds and each side
is attained by some input tile); every output pixel takes the value of the
first tile in the given list order whose non-nodata data covers it; and
appending later tiles never changes a pixel at which an earlier tile already
has a valid value — the first-wins tie-break. -/
theorem c1_merge_union_first_wins (ts later : List Tile) (x y : Int)
    (h : ts ≠ []) :
    (∃ b, mosaicBounds ts = some b ∧
      (∀ u ∈ ts, b.west ≤ u.bounds.west ∧ b.south ≤ u.bounds.south ∧
        u.bounds.east ≤ b.east ∧ u.bounds.north ≤ b.north) ∧
      (∃ u ∈ ts, b.west = u.bounds.west) ∧
      (∃ u ∈ ts, b.south = u.bounds.south) ∧
      (∃ u ∈ ts, b.east = u.bounds.east) ∧
      (∃ u ∈ ts, b.north = u.bounds.north)) ∧
    mergePx ts x y =
      (ts.find? (fun t => validAt t x y)).bind (fun t => t.px x y) ∧
    ((∃ t ∈ ts, validAt t x y = true) →
      mergePx (ts ++ later) x y = mergePx ts x y) := by
  cases ts with
  | nil => exact absurd rfl h
  | cons t ts =>
    obtain ⟨ha1, ha2, ha3, ha4⟩ := unionBounds_attained t ts
    exact ⟨⟨unionBounds t ts, rfl, unionBounds_le t ts, ha1, ha2, ha3, ha4⟩,
      mergePx_eq_find _ _ _,
      fun hx => mergePx_append_of_valid _ later _ _ hx⟩

theorem c1_witness :
    mergePx [⟨⟨0, 0, 2, 2⟩, fun _ _ => none⟩,
        ⟨⟨1, 1, 3, 3⟩, fun _ _ => some 5⟩] 1 1 = some 5 ∧
    mergePx ([⟨⟨0, 0, 2, 2⟩, fun _ _ => none⟩,
        ⟨⟨1, 1, 3, 3⟩, fun _ _ => some 5⟩] ++
          [⟨⟨0, 0, 9, 9⟩, fun _ _ => some 9⟩]) 1 1 = some 5 ∧
    mosaicBounds [⟨⟨0, 0, 2, 2⟩, fun _ _ => none⟩,
        ⟨⟨1, 1, 3, 3⟩, fun _ _ => some 5⟩] = some ⟨0, 0, 3, 3⟩ := by
  have h := c1_merge_union_first_wins
    [⟨⟨0, 0, 2, 2⟩, fun _ _ => none⟩, ⟨⟨1, 1, 3, 3⟩, fun _ _ => some 5⟩]
    [⟨⟨0, 0, 9, 9⟩, fun _ _ => some 9⟩] 1 1 (by simp)
  refine ⟨?_, ?_, ?_⟩
  · rw [h.2.1]
    decide
  · rw [h.2.2 (by decide), h.2.1]
    decide
  · decide
